import Mathlib

/-!
Verification of the debt-ledger consolidation and settlement engine of the
Grocery-Share API (`src/api/utils.py`, `src/api/views.py`, `src/api/models.py`).

Modelling choices:

* Money is kept in integer cents (`ℤ`).  Every persisted amount in the source
  is a
  Django `DecimalField(decimal_places=2)`, and the ledger code only adds,
  subtracts, negates and compares such values — all exact operations on
  two-decimal `Decimal`s, hence faithfully represented by `Int` cents.
* The debt store is a map keyed by `(group, debtor, creditor)`.  The `Debt`
  model declares `unique_together = ('group', 'debtor', 'creditor')`, so
  `Debt.objects.filter(group=.., debtor=.., creditor=..).first()` returns the
  unique record for that key (or nothing); `create`, `save` and `delete` are
  point updates of the map.
* `GroupMember` rows are compared by identity only, so members and groups are
  opaque identifiers (`Nat`).
-/

namespace GroceryShare

/-- One `ReceiptItemSplit` as consumed by `update_debts`: `group_member` is the
debtor, `paid_by` the creditor, `amount` what the member owes (in cents). -/
structure Split where
  group_member : ℕ
  paid_by : ℕ
  amount : ℤ
  deriving DecidableEq, Repr

/-- The persistent `Debt` store: for each key `(group, debtor, creditor)`,
either `some amount` (a `Debt` row exists with that amount) or `none`.  The
`unique_together ('group', 'debtor', 'creditor')` constraint makes this map
view faithful. -/
def Ledger : Type := ℕ → ℕ → ℕ → Option ℤ

/-- A store with no `Debt` rows. -/
def Ledger.empty : Ledger := fun _ _ _ => none

/-- Point update of the store at key `(g, d, c)`: `some v` models
`Debt.objects.create(...)` / `debt.save()`, `none` models `debt.delete()`. -/
def Ledger.set (L : Ledger) (g : ℕ) (d c : ℕ) (v : Option ℤ) :
    Ledger :=
  fun g' d' c' => if g' = g ∧ d' = d ∧ c' = c then v else L g' d' c'

/-- The body of the `for split in splits` loop of `update_debts`
(src/api/utils.py lines 108–151), folding a single split into the store. -/
def update_debt (L : Ledger) (g : ℕ) (s : Split) : Ledger :=
  let debtor := s.group_member
  let creditor := s.paid_by
  let amount := s.amount
  if debtor = creditor then
    L
  else
    match L g debtor creditor with
    | some a =>
        if a + amount = 0 then L.set g debtor creditor none
        else L.set g debtor creditor (some (a + amount))
    | none =>
        match L g creditor debtor with
        | some r =>
            if r - amount = 0 then L.set g creditor debtor none
            else if r - amount < 0 then
              (L.set g debtor creditor (some (-(r - amount)))).set g creditor
                debtor none
            else L.set g creditor debtor (some (r - amount))
        | none => L.set g debtor creditor (some amount)

/-- `update_debts(splits, group)` (src/api/utils.py lines 107–151): fold every
split, in order, into the store. -/
def update_debts (L : Ledger) (splits : List Split) (g : ℕ) : Ledger :=
  splits.foldl (fun acc s => update_debt acc g s) L

/-- The single-edge invariant of the spec: for every group and unordered pair
of distinct members at most one directional edge exists, and every existing
edge has a strictly positive amount. -/
def Invariant (L : Ledger) : Prop :=
  ∀ g a b, (a ≠ b → (L g a b).isSome → L g b a = none) ∧
    ∀ v, L g a b = some v → 0 < v

/-- Weakening of `Invariant` that only requires non-negative amounts. -/
def WeakInvariant (L : Ledger) : Prop :=
  ∀ g a b, (a ≠ b → (L g a b).isSome → L g b a = none) ∧
    ∀ v, L g a b = some v → 0 ≤ v

/-- Amount stored at key `(g, d, c)`, read as `0` when no row exists. -/
def owedAmount (L : Ledger) (g : ℕ) (d c : ℕ) : ℤ :=
  (L g d c).getD 0

/-- Signed net balance of the ordered pair `(a, b)` in group `g`: what `a`
owes `b` minus what `b` owes `a`. -/
def netBalance (L : Ledger) (g : ℕ) (a b : ℕ) : ℤ :=
  owedAmount L g a b - owedAmount L g b a

/-- Signed contribution of one split to the ordered pair `(a, b)`. -/
def contrib (s : Split) (a b : ℕ) : ℤ :=
  (if s.group_member = a ∧ s.paid_by = b then s.amount else 0) -
    (if s.group_member = b ∧ s.paid_by = a then s.amount else 0)

/-- Signed sum of the contributions of a list of splits to `(a, b)`. -/
def contribSum (splits : List Split) (a b : ℕ) : ℤ :=
  (splits.map (fun s => contrib s a b)).sum

/-- Round the exact quotient `num / den` (for `den > 0`) to the nearest
integer, ties to the even neighbour.  This is Python `Decimal.quantize` under
the default context rounding `ROUND_HALF_EVEN`, applied to the exact quotient:
the preceding 28-significant-digit `Decimal` division is exact on every
half-cent tie and is never close enough to a tie elsewhere to change the
quantized result at these magnitudes. -/
def roundHalfEven (num den : ℤ) : ℤ :=
  let q := num.fdiv den
  let r := num - den * q
  if 2 * r < den then q
  else if den < 2 * r then q + 1
  else if q % 2 = 0 then q else q + 1

/-- Round the exact quotient `num / den` (for `den > 0`) to the nearest
integer, ties away from zero.  This is Python
`Decimal.quantize(..., rounding=ROUND_HALF_UP)` on the exact value. -/
def roundHalfUp (num den : ℤ) : ℤ :=
  if 0 ≤ num then (2 * num + den).fdiv (2 * den)
  else -(2 * -num + den).fdiv (2 * den)

/-- The split policy of a receipt item (`split_method` plus, for `BY_USER`,
the `split_user_id`). -/
inductive SplitMethod where
  | EVENLY : SplitMethod
  | BY_USER : ℕ → SplitMethod
  deriving DecidableEq, Repr

/-- The split-creation part of `create_receipt_item_and_splits`
(src/api/utils.py lines 76–103), with `actual_price` in cents.  For `EVENLY`,
`actual_price / num_members` is a `Decimal` division and
`.quantize(Decimal(0.01))` uses the context default rounding `ROUND_HALF_EVEN`;
in cents that is `roundHalfEven (actual_price / n)`.  An empty roster raises
`ValueError`, modelled as `Except.error`. -/
def create_receipt_item_and_splits (actual_price : ℤ)
    (split_method : SplitMethod) (group_members : List ℕ)
    (paid_by : ℕ) : Except String (List Split) :=
  match split_method with
  | .EVENLY =>
      let num_members := group_members.length
      if num_members = 0 then
        .error "No members in the group to split the item."
      else
        .ok (group_members.map fun member =>
          ⟨member, paid_by, roundHalfEven actual_price num_members⟩)
  | .BY_USER split_user =>
      .ok [⟨split_user, paid_by, actual_price⟩]

/-- The `amount` field of a payment request, as seen by
`validate_payment_amount` after `str(...)`: either a value whose string form
parses as a decimal numeral (ints, floats, numeric strings — carried here as
the exact rational it denotes, in currency units), or anything else. -/
inductive PyVal where
  | num : ℚ → PyVal
  | nonNumeric : PyVal
  deriving DecidableEq, Repr

/-- Outcome of `validate_payment_amount`. -/
inductive ValidateResult where
  | ok : ℤ → ValidateResult
  | invalid : String → ValidateResult
  | raised : ValidateResult
  deriving DecidableEq, Repr

/-- `validate_payment_amount(payment_amount, debt_amount)`
(src/api/utils.py lines 271–289), with `debt_amount` in cents.  The rounded
payment is `Decimal(str(x)).quantize(Decimal(0.00), rounding=ROUND_HALF_UP)`,
i.e. `roundHalfUp` of the value in cents.  On a non-numeric input
`Decimal(str(x))` raises `decimal.InvalidOperation`, a subclass of
`ArithmeticError` that the `except (TypeError, ValueError)` clause does not
catch, so the exception escapes the function: modelled as `.raised`. -/
def validate_payment_amount (payment_amount : PyVal) (debt_amount : ℤ) :
    ValidateResult :=
  match payment_amount with
  | .nonNumeric => .raised
  | .num q =>
      let p := roundHalfUp (100 * q.num) q.den
      if p ≤ 0 then .invalid "Payment amount must be greater than 0."
      else if p > debt_amount then
        .invalid "Payment amount cannot exceed the debt amount."
      else .ok p

/-- Outcome of the settlement step of `PayDebtView.post`. -/
inductive PayResult where
  | rejected : String → PayResult
  | raisedError : PayResult
  | fullyPaid : PayResult
  | remaining : ℤ → PayResult
  deriving DecidableEq, Repr

/-- The settlement core of `PayDebtView.post` (src/api/views.py lines
961–980): validate the requested amount against the edge, then
`debt.amount -= payment_amount`; delete the edge and report full settlement
when the result is `<= 0`, otherwise save the reduced edge. -/
def pay_debt (debt_amount : ℤ) (amount_input : PyVal) : PayResult :=
  match validate_payment_amount amount_input debt_amount with
  | .raised => .raisedError
  | .invalid msg => .rejected msg
  | .ok payment_amount =>
      let remaining := debt_amount - payment_amount
      if remaining ≤ 0 then .fullyPaid else .remaining remaining

section LedgerLemmas

theorem Ledger.set_same (L : Ledger) (g : ℕ) (d c : ℕ)
    (v : Option ℤ) : L.set g d c v g d c = v := by
  simp [Ledger.set]

theorem Ledger.set_other (L : Ledger) (g : ℕ) (d c : ℕ)
    (v : Option ℤ) (g' : ℕ) (d' c' : ℕ)
    (h : ¬(g' = g ∧ d' = d ∧ c' = c)) : L.set g d c v g' d' c' = L g' d' c' := by
  simp [Ledger.set, h]

theorem update_debt_self (L : Ledger) (g : ℕ) (s : Split)
    (h : s.group_member = s.paid_by) : update_debt L g s = L := by
  unfold update_debt
  simp [h]

theorem update_debt_same_dir (L : Ledger) (g : ℕ) (s : Split) (a : ℤ)
    (hne : s.group_member ≠ s.paid_by)
    (h : L g s.group_member s.paid_by = some a) :
    update_debt L g s =
      if a + s.amount = 0 then L.set g s.group_member s.paid_by none
      else L.set g s.group_member s.paid_by (some (a + s.amount)) := by
  unfold update_debt
  simp [hne, h]

theorem update_debt_reverse (L : Ledger) (g : ℕ) (s : Split) (r : ℤ)
    (hne : s.group_member ≠ s.paid_by)
    (hF : L g s.group_member s.paid_by = none)
    (hR : L g s.paid_by s.group_member = some r) :
    update_debt L g s =
      if r - s.amount = 0 then L.set g s.paid_by s.group_member none
      else if r - s.amount < 0 then
        (L.set g s.group_member s.paid_by
          (some (-(r - s.amount)))).set g s.paid_by s.group_member none
      else L.set g s.paid_by s.group_member (some (r - s.amount)) := by
  unfold update_debt
  simp [hne, hF, hR]

theorem update_debt_create (L : Ledger) (g : ℕ) (s : Split)
    (hne : s.group_member ≠ s.paid_by)
    (hF : L g s.group_member s.paid_by = none)
    (hR : L g s.paid_by s.group_member = none) :
    update_debt L g s = L.set g s.group_member s.paid_by (some s.amount) := by
  unfold update_debt
  simp [hne, hF, hR]

/-- Keys outside the folded split's pair (in its group) are untouched. -/
theorem update_debt_frame (L : Ledger) (g : ℕ) (s : Split)
    (g' : ℕ) (d' c' : ℕ)
    (h : ¬(g' = g ∧ ((d' = s.group_member ∧ c' = s.paid_by) ∨
      (d' = s.paid_by ∧ c' = s.group_member)))) :
    update_debt L g s g' d' c' = L g' d' c' := by
  by_cases hself : s.group_member = s.paid_by
  · rw [update_debt_self L g s hself]
  rcases hF : L g s.group_member s.paid_by with _ | a
  · rcases hR : L g s.paid_by s.group_member with _ | r
    · rw [update_debt_create L g s hself hF hR]
      exact Ledger.set_other _ _ _ _ _ _ _ _ (by tauto)
    · rw [update_debt_reverse L g s r hself hF hR]
      split_ifs with h1 h2
      · exact Ledger.set_other _ _ _ _ _ _ _ _ (by tauto)
      · rw [Ledger.set_other _ _ _ _ _ _ _ _ (by tauto),
          Ledger.set_other _ _ _ _ _ _ _ _ (by tauto)]
      · exact Ledger.set_other _ _ _ _ _ _ _ _ (by tauto)
  · rw [update_debt_same_dir L g s a hself hF]
    split_ifs with h1
    · exact Ledger.set_other _ _ _ _ _ _ _ _ (by tauto)
    · exact Ledger.set_other _ _ _ _ _ _ _ _ (by tauto)

/-- Under the invariant, the row stored at an ordered key is determined by the
net balance of its pair. -/
theorem canonical_of_invariant (L : Ledger) (hL : Invariant L) (g : ℕ)
    (a b : ℕ) (hab : a ≠ b) :
    L g a b =
      if 0 < netBalance L g a b then some (netBalance L g a b) else none := by
  rcases hF : L g a b with _ | x
  · rcases hR : L g b a with _ | y
    · have hn : netBalance L g a b = 0 := by
        unfold netBalance owedAmount
        rw [hF, hR]
        simp
      rw [hn]
      simp
    · have hy : 0 < y := (hL g b a).2 y hR
      have hn : netBalance L g a b = -y := by
        unfold netBalance owedAmount
        rw [hF, hR]
        simp
      rw [hn, if_neg (show ¬(0 < -y) by omega)]
  · have hx : 0 < x := (hL g a b).2 x hF
    have hnone : L g b a = none := (hL g a b).1 hab (by rw [hF]; rfl)
    have hn : netBalance L g a b = x := by
      unfold netBalance owedAmount
      rw [hF, hnone]
      simp
    rw [hn, if_pos hx]

/-- One fold step, seen at the two keys of the folded pair: starting from an
invariant state, the post-state is the canonical encoding of the updated net
balance. -/
theorem update_debt_pair_char (L : Ledger) (g : ℕ) (s : Split)
    (hL : Invariant L) (hm : 0 < s.amount)
    (hne : s.group_member ≠ s.paid_by) :
    update_debt L g s g s.group_member s.paid_by =
      (if 0 < netBalance L g s.group_member s.paid_by + s.amount
       then some (netBalance L g s.group_member s.paid_by + s.amount)
       else none) ∧
    update_debt L g s g s.paid_by s.group_member =
      (if netBalance L g s.group_member s.paid_by + s.amount < 0
       then some (-(netBalance L g s.group_member s.paid_by + s.amount))
       else none) := by
  have hF := canonical_of_invariant L hL g s.group_member s.paid_by hne
  have hR := canonical_of_invariant L hL g s.paid_by s.group_member
    (Ne.symm hne)
  have hsymm : netBalance L g s.paid_by s.group_member =
      -netBalance L g s.group_member s.paid_by := by
    unfold netBalance
    ring
  rw [hsymm] at hR
  generalize hn0 : netBalance L g s.group_member s.paid_by = n0 at hF hR ⊢
  rcases lt_trichotomy n0 0 with hcase | hcase | hcase
  · rw [if_neg (show ¬(0 < n0) by omega)] at hF
    rw [if_pos (show 0 < -n0 by omega)] at hR
    rw [update_debt_reverse L g s (-n0) hne hF hR]
    by_cases h1 : -n0 - s.amount = 0
    · rw [if_pos h1]
      constructor
      · rw [Ledger.set_other _ _ _ _ _ _ _ _ (by tauto), hF,
          if_neg (show ¬(0 < n0 + s.amount) by omega)]
      · rw [Ledger.set_same, if_neg (show ¬(n0 + s.amount < 0) by omega)]
    · rw [if_neg h1]
      by_cases h2 : -n0 - s.amount < 0
      · rw [if_pos h2]
        constructor
        · rw [Ledger.set_other _ _ _ _ _ _ _ _ (by tauto), Ledger.set_same,
            if_pos (show 0 < n0 + s.amount by omega)]
          congr 1
          ring
        · rw [Ledger.set_same, if_neg (show ¬(n0 + s.amount < 0) by omega)]
      · rw [if_neg h2]
        constructor
        · rw [Ledger.set_other _ _ _ _ _ _ _ _ (by tauto), hF,
            if_neg (show ¬(0 < n0 + s.amount) by omega)]
        · rw [Ledger.set_same, if_pos (show n0 + s.amount < 0 by omega)]
          congr 1
          ring
  · rw [if_neg (show ¬(0 < n0) by omega)] at hF
    rw [if_neg (show ¬(0 < -n0) by omega)] at hR
    rw [update_debt_create L g s hne hF hR]
    constructor
    · rw [Ledger.set_same, if_pos (show 0 < n0 + s.amount by omega)]
      congr 1
      omega
    · rw [Ledger.set_other _ _ _ _ _ _ _ _ (by tauto), hR,
        if_neg (show ¬(n0 + s.amount < 0) by omega)]
  · rw [if_pos hcase] at hF
    rw [if_neg (show ¬(0 < -n0) by omega)] at hR
    rw [update_debt_same_dir L g s n0 hne hF,
      if_neg (show ¬(n0 + s.amount = 0) by omega)]
    constructor
    · rw [Ledger.set_same, if_pos (show 0 < n0 + s.amount by omega)]
    · rw [Ledger.set_other _ _ _ _ _ _ _ _ (by tauto), hR,
        if_neg (show ¬(n0 + s.amount < 0) by omega)]

/-- Folding one split preserves the single-edge invariant when the split
amount is strictly positive. -/
theorem update_debt_invariant (L : Ledger) (g : ℕ) (s : Split)
    (hL : Invariant L) (hm : 0 < s.amount) : Invariant (update_debt L g s) := by
  by_cases hself : s.group_member = s.paid_by
  · rwa [update_debt_self L g s hself]
  intro g' a b
  by_cases hT : g' = g ∧ ((a = s.group_member ∧ b = s.paid_by) ∨
    (a = s.paid_by ∧ b = s.group_member))
  · obtain ⟨hg, hab⟩ := hT
    subst hg
    obtain ⟨h1, h2⟩ := update_debt_pair_char L g' s hL hm hself
    rcases hab with ⟨ha, hb⟩ | ⟨ha, hb⟩
    · subst ha
      subst hb
      constructor
      · intro _ hsome
        rw [h1] at hsome
        rw [h2]
        by_cases hpos : 0 < netBalance L g' s.group_member s.paid_by + s.amount
        · rw [if_neg (show ¬(netBalance L g' s.group_member s.paid_by +
            s.amount < 0) by omega)]
        · rw [if_neg hpos] at hsome
          simp at hsome
      · intro v hv
        rw [h1] at hv
        by_cases hpos : 0 < netBalance L g' s.group_member s.paid_by + s.amount
        · rw [if_pos hpos] at hv
          injection hv with hv
          omega
        · rw [if_neg hpos] at hv
          simp at hv
    · subst ha
      subst hb
      constructor
      · intro _ hsome
        rw [h2] at hsome
        rw [h1]
        by_cases hneg : netBalance L g' s.group_member s.paid_by + s.amount < 0
        · rw [if_neg (show ¬(0 < netBalance L g' s.group_member s.paid_by +
            s.amount) by omega)]
        · rw [if_neg hneg] at hsome
          simp at hsome
      · intro v hv
        rw [h2] at hv
        by_cases hneg : netBalance L g' s.group_member s.paid_by + s.amount < 0
        · rw [if_pos hneg] at hv
          injection hv with hv
          omega
        · rw [if_neg hneg] at hv
          simp at hv
  · have e1 : update_debt L g s g' a b = L g' a b :=
      update_debt_frame L g s g' a b (by tauto)
    have e2 : update_debt L g s g' b a = L g' b a :=
      update_debt_frame L g s g' b a (by tauto)
    refine ⟨fun hab hsome => ?_, fun v hv => ?_⟩
    · rw [e2]
      exact (hL g' a b).1 hab (by rwa [e1] at hsome)
    · exact (hL g' a b).2 v (by rwa [e1] at hv)

/-- Folding one split of non-negative amount, seen at the two keys of the
folded pair: at most one key is occupied afterwards, with a non-negative
amount. -/
theorem update_debt_pair_weak (L : Ledger) (g : ℕ) (s : Split)
    (hL : WeakInvariant L) (hm : 0 ≤ s.amount)
    (hne : s.group_member ≠ s.paid_by) :
    ((update_debt L g s g s.group_member s.paid_by).isSome →
      update_debt L g s g s.paid_by s.group_member = none) ∧
    ((update_debt L g s g s.paid_by s.group_member).isSome →
      update_debt L g s g s.group_member s.paid_by = none) ∧
    (∀ v, update_debt L g s g s.group_member s.paid_by = some v → 0 ≤ v) ∧
    (∀ v, update_debt L g s g s.paid_by s.group_member = some v → 0 ≤ v) := by
  rcases hF : L g s.group_member s.paid_by with _ | x
  · rcases hR : L g s.paid_by s.group_member with _ | r
    · rw [update_debt_create L g s hne hF hR, Ledger.set_same,
        Ledger.set_other _ _ _ _ _ _ _ _ (by tauto), hR]
      refine ⟨fun _ => rfl, by simp, ?_, by simp⟩
      intro v hv
      injection hv with hv
      omega
    · have hr : 0 ≤ r := (hL g s.paid_by s.group_member).2 r hR
      rw [update_debt_reverse L g s r hne hF hR]
      by_cases h1 : r - s.amount = 0
      · rw [if_pos h1, Ledger.set_same,
          Ledger.set_other _ _ _ _ _ _ _ _ (by tauto), hF]
        exact ⟨by simp, by simp, by simp, by simp⟩
      · rw [if_neg h1]
        by_cases h2 : r - s.amount < 0
        · rw [if_pos h2, Ledger.set_same,
            Ledger.set_other _ _ _ _ _ _ _ _ (by tauto), Ledger.set_same]
          refine ⟨fun _ => rfl, by simp, ?_, by simp⟩
          intro v hv
          injection hv with hv
          omega
        · rw [if_neg h2, Ledger.set_same,
            Ledger.set_other _ _ _ _ _ _ _ _ (by tauto), hF]
          refine ⟨by simp, fun _ => rfl, by simp, ?_⟩
          intro v hv
          injection hv with hv
          omega
  · have hx : 0 ≤ x := (hL g s.group_member s.paid_by).2 x hF
    have hRn : L g s.paid_by s.group_member = none :=
      (hL g s.group_member s.paid_by).1 hne (by rw [hF]; rfl)
    rw [update_debt_same_dir L g s x hne hF]
    by_cases h1 : x + s.amount = 0
    · rw [if_pos h1, Ledger.set_same,
        Ledger.set_other _ _ _ _ _ _ _ _ (by tauto), hRn]
      exact ⟨by simp, by simp, by simp, by simp⟩
    · rw [if_neg h1, Ledger.set_same,
        Ledger.set_other _ _ _ _ _ _ _ _ (by tauto), hRn]
      refine ⟨fun _ => rfl, by simp, ?_, by simp⟩
      intro v hv
      injection hv with hv
      omega

/-- Folding one split preserves the weak invariant when the split amount is
non-negative. -/
theorem update_debt_weak_invariant (L : Ledger) (g : ℕ) (s : Split)
    (hL : WeakInvariant L) (hm : 0 ≤ s.amount) :
    WeakInvariant (update_debt L g s) := by
  by_cases hself : s.group_member = s.paid_by
  · rwa [update_debt_self L g s hself]
  intro g' a b
  by_cases hT : g' = g ∧ ((a = s.group_member ∧ b = s.paid_by) ∨
    (a = s.paid_by ∧ b = s.group_member))
  · obtain ⟨hg, hab⟩ := hT
    subst hg
    obtain ⟨w1, w2, w3, w4⟩ := update_debt_pair_weak L g' s hL hm hself
    rcases hab with ⟨ha, hb⟩ | ⟨ha, hb⟩
    · subst ha
      subst hb
      exact ⟨fun _ => w1, w3⟩
    · subst ha
      subst hb
      exact ⟨fun _ => w2, w4⟩
  · have e1 : update_debt L g s g' a b = L g' a b :=
      update_debt_frame L g s g' a b (by tauto)
    have e2 : update_debt L g s g' b a = L g' b a :=
      update_debt_frame L g s g' b a (by tauto)
    refine ⟨fun hab hsome => ?_, fun v hv => ?_⟩
    · rw [e2]
      exact (hL g' a b).1 hab (by rwa [e1] at hsome)
    · exact (hL g' a b).2 v (by rwa [e1] at hv)

theorem netBalance_symm (L : Ledger) (g : ℕ) (a b : ℕ) :
    netBalance L g b a = -netBalance L g a b := by
  unfold netBalance
  ring

theorem contrib_symm (s : Split) (a b : ℕ) :
    contrib s b a = -contrib s a b := by
  unfold contrib
  ring

theorem contrib_gm_pb (s : Split) (hne : s.group_member ≠ s.paid_by) :
    contrib s s.group_member s.paid_by = s.amount := by
  unfold contrib
  rw [if_pos ⟨rfl, rfl⟩, if_neg (by tauto)]
  ring

theorem contrib_other (s : Split) (a b : ℕ)
    (h1 : ¬(s.group_member = a ∧ s.paid_by = b))
    (h2 : ¬(s.group_member = b ∧ s.paid_by = a)) : contrib s a b = 0 := by
  unfold contrib
  rw [if_neg h1, if_neg h2]
  ring

/-- One fold step adds the split amount to the folded pair's net balance, for
every store (no invariant needed). -/
theorem update_debt_net_pair (L : Ledger) (g : ℕ) (s : Split)
    (hne : s.group_member ≠ s.paid_by) :
    netBalance (update_debt L g s) g s.group_member s.paid_by =
      netBalance L g s.group_member s.paid_by + s.amount := by
  unfold netBalance owedAmount
  rcases hF : L g s.group_member s.paid_by with _ | x
  · rcases hR : L g s.paid_by s.group_member with _ | r
    · rw [update_debt_create L g s hne hF hR, Ledger.set_same,
        Ledger.set_other _ _ _ _ _ _ _ _ (by tauto), hR]
      simp only [Option.getD_some, Option.getD_none]
      omega
    · rw [update_debt_reverse L g s r hne hF hR]
      by_cases h1 : r - s.amount = 0
      · rw [if_pos h1, Ledger.set_same,
          Ledger.set_other _ _ _ _ _ _ _ _ (by tauto), hF]
        simp only [Option.getD_some, Option.getD_none]
        omega
      · rw [if_neg h1]
        by_cases h2 : r - s.amount < 0
        · rw [if_pos h2, Ledger.set_same,
            Ledger.set_other _ _ _ _ _ _ _ _ (by tauto), Ledger.set_same]
          simp only [Option.getD_some, Option.getD_none]
          omega
        · rw [if_neg h2, Ledger.set_same,
            Ledger.set_other _ _ _ _ _ _ _ _ (by tauto), hF]
          simp only [Option.getD_some, Option.getD_none]
          omega
  · rw [update_debt_same_dir L g s x hne hF]
    by_cases h1 : x + s.amount = 0
    · rw [if_pos h1, Ledger.set_same,
        Ledger.set_other _ _ _ _ _ _ _ _ (by tauto)]
      simp only [Option.getD_some, Option.getD_none]
      omega
    · rw [if_neg h1, Ledger.set_same,
        Ledger.set_other _ _ _ _ _ _ _ _ (by tauto)]
      simp only [Option.getD_some, Option.getD_none]
      omega

/-- One fold step changes the net balance of every ordered pair of distinct
members by exactly that split's signed contribution, in every store. -/
theorem update_debt_net (L : Ledger) (g : ℕ) (s : Split) (g' : ℕ)
    (a b : ℕ) (hab : a ≠ b) :
    netBalance (update_debt L g s) g' a b =
      netBalance L g' a b + (if g' = g then contrib s a b else 0) := by
  by_cases hself : s.group_member = s.paid_by
  · rw [update_debt_self L g s hself]
    have hc : contrib s a b = 0 := contrib_other s a b (by omega) (by omega)
    rw [hc]
    simp
  by_cases hg : g' = g
  · subst hg
    by_cases h1 : a = s.group_member ∧ b = s.paid_by
    · obtain ⟨ha, hb⟩ := h1
      subst ha
      subst hb
      rw [update_debt_net_pair L g' s hself, if_pos rfl,
        contrib_gm_pb s hself]
    · by_cases h2 : a = s.paid_by ∧ b = s.group_member
      · obtain ⟨ha, hb⟩ := h2
        subst ha
        subst hb
        rw [netBalance_symm (update_debt L g' s), netBalance_symm L,
          update_debt_net_pair L g' s hself, if_pos rfl, contrib_symm,
          contrib_gm_pb s hself]
        ring
      · have e1 : update_debt L g' s g' a b = L g' a b :=
          update_debt_frame L g' s g' a b (by tauto)
        have e2 : update_debt L g' s g' b a = L g' b a :=
          update_debt_frame L g' s g' b a (by tauto)
        have hc : contrib s a b = 0 := contrib_other s a b (by tauto) (by tauto)
        unfold netBalance owedAmount
        rw [e1, e2, if_pos rfl, hc, add_zero]
  · have e1 : update_debt L g s g' a b = L g' a b :=
      update_debt_frame L g s g' a b (by tauto)
    have e2 : update_debt L g s g' b a = L g' b a :=
      update_debt_frame L g s g' b a (by tauto)
    unfold netBalance owedAmount
    rw [e1, e2, if_neg hg, add_zero]

theorem contribSum_nil (a b : ℕ) : contribSum [] a b = 0 := rfl

theorem contribSum_cons (s : Split) (rest : List Split) (a b : ℕ) :
    contribSum (s :: rest) a b = contrib s a b + contribSum rest a b := by
  unfold contribSum
  rw [List.map_cons, List.sum_cons]

theorem contribSum_perm (l1 l2 : List Split) (h : l1.Perm l2) (a b : ℕ) :
    contribSum l1 a b = contribSum l2 a b := by
  unfold contribSum
  exact List.Perm.sum_eq (h.map _)

/-- Folding any list of strictly positive splits preserves the single-edge
invariant. -/
theorem update_debts_invariant (L : Ledger) (splits : List Split) (g : ℕ)
    (hL : Invariant L) (hpos : ∀ s ∈ splits, 0 < s.amount) :
    Invariant (update_debts L splits g) := by
  induction splits generalizing L with
  | nil => exact hL
  | cons s rest ih =>
      exact ih (update_debt L g s)
        (update_debt_invariant L g s hL (hpos s (List.mem_cons_self s rest)))
        (fun t ht => hpos t (List.mem_cons_of_mem s ht))

/-- Folding any list of non-negative splits preserves the weak invariant. -/
theorem update_debts_weak_invariant (L : Ledger) (splits : List Split)
    (g : ℕ) (hL : WeakInvariant L) (hpos : ∀ s ∈ splits, 0 ≤ s.amount) :
    WeakInvariant (update_debts L splits g) := by
  induction splits generalizing L with
  | nil => exact hL
  | cons s rest ih =>
      exact ih (update_debt L g s)
        (update_debt_weak_invariant L g s hL
          (hpos s (List.mem_cons_self s rest)))
        (fun t ht => hpos t (List.mem_cons_of_mem s ht))

/-- Folding a list of splits changes each pair's net balance by exactly the
list's signed contribution to that pair, in every store. -/
theorem update_debts_net (L : Ledger) (splits : List Split) (g : ℕ)
    (g' : ℕ) (a b : ℕ) (hab : a ≠ b) :
    netBalance (update_debts L splits g) g' a b =
      netBalance L g' a b +
        (if g' = g then contribSum splits a b else 0) := by
  induction splits generalizing L with
  | nil =>
      show netBalance L g' a b = _
      rw [contribSum_nil]
      simp
  | cons s rest ih =>
      show netBalance (update_debts (update_debt L g s) rest g) g' a b = _
      rw [ih (update_debt L g s), update_debt_net L g s g' a b hab,
        contribSum_cons]
      split_ifs
      · ring
      · ring

/-- Full characterization of a fold from an invariant store with strictly
positive splits: every key holds the canonical encoding of the accumulated
net balance of its pair. -/
theorem update_debts_char (L : Ledger) (splits : List Split) (g : ℕ)
    (hL : Invariant L) (hpos : ∀ s ∈ splits, 0 < s.amount) (g' : ℕ)
    (a b : ℕ) :
    update_debts L splits g g' a b =
      if g' = g ∧ a ≠ b then
        (if 0 < netBalance L g a b + contribSum splits a b
         then some (netBalance L g a b + contribSum splits a b) else none)
      else L g' a b := by
  induction splits generalizing L with
  | nil =>
      show L g' a b = _
      by_cases h : g' = g ∧ a ≠ b
      · obtain ⟨hg, hab⟩ := h
        subst hg
        rw [if_pos ⟨rfl, hab⟩]
        have hcan := canonical_of_invariant L hL g' a b hab
        rw [contribSum_nil, add_zero]
        exact hcan
      · rw [if_neg h]
  | cons s rest ih =>
      show update_debts (update_debt L g s) rest g g' a b = _
      rw [ih (update_debt L g s)
        (update_debt_invariant L g s hL (hpos s (List.mem_cons_self s rest)))
        (fun t ht => hpos t (List.mem_cons_of_mem s ht))]
      by_cases h : g' = g ∧ a ≠ b
      · obtain ⟨hg, hab⟩ := h
        subst hg
        have hnet := update_debt_net L g' s g' a b hab
        rw [if_pos rfl] at hnet
        rw [if_pos (show g' = g' ∧ a ≠ b from ⟨rfl, hab⟩),
          if_pos (show g' = g' ∧ a ≠ b from ⟨rfl, hab⟩), hnet,
          contribSum_cons, add_assoc]
      · rw [if_neg h, if_neg h]
        by_cases hself : s.group_member = s.paid_by
        · rw [update_debt_self L g s hself]
        · exact update_debt_frame L g s g' a b (by omega)

/-- A fold from the empty store only populates keys of its own group whose
members form the pair of one of the folded splits. -/
theorem update_debts_support (L : Ledger) (splits : List Split) (g : ℕ)
    (g' : ℕ) (d c : ℕ) :
    update_debts L splits g g' d c ≠ none →
      L g' d c ≠ none ∨ (g' = g ∧ ∃ s ∈ splits,
        (d = s.group_member ∧ c = s.paid_by) ∨
        (d = s.paid_by ∧ c = s.group_member)) := by
  induction splits generalizing L with
  | nil => exact fun h => Or.inl h
  | cons s rest ih =>
      intro h
      rcases ih (update_debt L g s) h with h' | ⟨hg, t, ht, hp⟩
      · by_cases hT : g' = g ∧ ((d = s.group_member ∧ c = s.paid_by) ∨
          (d = s.paid_by ∧ c = s.group_member))
        · exact Or.inr ⟨hT.1, s, List.mem_cons_self s rest, hT.2⟩
        · rw [update_debt_frame L g s g' d c hT] at h'
          exact Or.inl h'
      · exact Or.inr ⟨hg, t, List.mem_cons_of_mem s ht, hp⟩

theorem invariant_empty : Invariant Ledger.empty := by
  intro g a b
  exact ⟨fun _ _ => rfl, fun v hv => by simp [Ledger.empty] at hv⟩

theorem weak_invariant_empty : WeakInvariant Ledger.empty := by
  intro g a b
  exact ⟨fun _ _ => rfl, fun v hv => by simp [Ledger.empty] at hv⟩

end LedgerLemmas

/-- C1.  As stated the claim fails: an obligation of amount `0.00` (which the
allocator can produce, e.g. `0.01` split evenly between 2 or more members)
folded onto a pair with no existing edge creates and persists an edge of
amount zero, so "every existing edge has a strictly positive amount" does not
survive every fold of non-negative obligations. -/
theorem C1_counterexample : ¬ (∀ (L : Ledger) (splits : List Split) (g : ℕ),
    Invariant L → (∀ s ∈ splits, 0 ≤ s.amount) →
    Invariant (update_debts L splits g)) := by
  intro h
  have h0 := h Ledger.empty [⟨0, 1, 0⟩] 0 invariant_empty (by decide)
  have hval : update_debts Ledger.empty [⟨0, 1, 0⟩] 0 0 0 1 = some 0 := by
    decide
  have := (h0 0 0 1).2 0 hval
  omega

/-- C1 (amended).  For every sequence of folds of obligations with strictly
positive amounts, starting from a store satisfying the single-edge invariant,
the invariant is preserved: at most one of edge(A,B)/edge(B,A) exists per
group and unordered pair, and every edge amount stays strictly positive.
With merely non-negative amounts, the at-most-one-edge part and
non-negativity of amounts are still preserved (but a zero-amount edge can be
created, as the counterexample shows). -/
theorem C1_single_edge_invariant (L : Ledger) (splits : List Split)
    (g : ℕ) :
    (Invariant L → (∀ s ∈ splits, 0 < s.amount) →
      Invariant (update_debts L splits g)) ∧
    (WeakInvariant L → (∀ s ∈ splits, 0 ≤ s.amount) →
      WeakInvariant (update_debts L splits g)) :=
  ⟨fun hL hpos => update_debts_invariant L splits g hL hpos,
   fun hL hpos => update_debts_weak_invariant L splits g hL hpos⟩

theorem C1_single_edge_invariant_witness :
    Invariant (update_debts Ledger.empty [⟨1, 0, 500⟩, ⟨2, 0, 500⟩] 0) :=
  (C1_single_edge_invariant Ledger.empty [⟨1, 0, 500⟩, ⟨2, 0, 500⟩] 0).1
    invariant_empty (by decide)

/-- C2.  Per-obligation fold semantics, for `debtor ≠ creditor`: a
same-direction edge is increased and deleted exactly on zero; otherwise a
reverse edge is decreased, deleted on zero, kept when still positive, and
replaced by a flipped edge of the absolute value when negative; otherwise a
new edge is created with the obligation amount.  Concretely, folding
(B owes A, 35.00) onto the single edge (A owes B, 20.00) leaves exactly the
edge (B owes A, 15.00). -/
theorem C2_fold_cases (L : Ledger) (g : ℕ) (s : Split)
    (hne : s.group_member ≠ s.paid_by) :
    (∀ a, L g s.group_member s.paid_by = some a →
      update_debt L g s g s.group_member s.paid_by =
        (if a + s.amount = 0 then none else some (a + s.amount)) ∧
      update_debt L g s g s.paid_by s.group_member =
        L g s.paid_by s.group_member) ∧
    (L g s.group_member s.paid_by = none →
      ∀ r, L g s.paid_by s.group_member = some r →
        update_debt L g s g s.paid_by s.group_member =
          (if r - s.amount = 0 then none
           else if r - s.amount < 0 then none else some (r - s.amount)) ∧
        update_debt L g s g s.group_member s.paid_by =
          (if r - s.amount < 0 then some (-(r - s.amount)) else none)) ∧
    (L g s.group_member s.paid_by = none →
      L g s.paid_by s.group_member = none →
      update_debt L g s g s.group_member s.paid_by = some s.amount ∧
      update_debt L g s g s.paid_by s.group_member = none) ∧
    update_debts (Ledger.empty.set 0 0 1 (some 2000)) [⟨1, 0, 3500⟩] 0 =
      Ledger.empty.set 0 1 0 (some 1500) := by
  refine ⟨?_, ?_, ?_, ?_⟩
  · intro a ha
    rw [update_debt_same_dir L g s a hne ha]
    constructor
    · split_ifs with h1
      · exact Ledger.set_same _ _ _ _ _
      · exact Ledger.set_same _ _ _ _ _
    · split_ifs with h1
      · exact Ledger.set_other _ _ _ _ _ _ _ _ (by tauto)
      · exact Ledger.set_other _ _ _ _ _ _ _ _ (by tauto)
  · intro hF r hR
    rw [update_debt_reverse L g s r hne hF hR]
    constructor
    · split_ifs with h1 h2
      · exact Ledger.set_same _ _ _ _ _
      · exact Ledger.set_same _ _ _ _ _
      · exact Ledger.set_same _ _ _ _ _
    · split_ifs with h1 h2
      · omega
      · rw [Ledger.set_other _ _ _ _ _ _ _ _ (by tauto)]
        exact hF
      · rw [Ledger.set_other _ _ _ _ _ _ _ _ (by tauto)]
        exact Ledger.set_same _ _ _ _ _
      · rw [Ledger.set_other _ _ _ _ _ _ _ _ (by tauto)]
        exact hF
  · intro hF hR
    rw [update_debt_create L g s hne hF hR]
    constructor
    · exact Ledger.set_same _ _ _ _ _
    · rw [Ledger.set_other _ _ _ _ _ _ _ _ (by tauto)]
      exact hR
  · have h1 : update_debts (Ledger.empty.set 0 0 1 (some 2000))
        [⟨1, 0, 3500⟩] 0 =
      ((Ledger.empty.set 0 0 1 (some 2000)).set 0 1 0
        (some 1500)).set 0 0 1 none := rfl
    rw [h1]
    funext g' d' c'
    simp only [Ledger.set, Ledger.empty]
    split_ifs <;> first | rfl | omega

theorem C2_fold_cases_witness :
    update_debts (Ledger.empty.set 0 0 1 (some 2000)) [⟨1, 0, 3500⟩] 0 =
      Ledger.empty.set 0 1 0 (some 1500) :=
  (C2_fold_cases (Ledger.empty.set 0 0 1 (some 2000)) 0 ⟨1, 0, 3500⟩
    (by decide)).2.2.2

/-- C3.  Folding any list of obligations into the empty store: (a) the net
balance of every ordered pair of distinct members equals the signed sum of
the obligations folded for that pair (no obligation dropped or
double-counted); (b) rows only appear in the folded group, between members
of some folded obligation; (c) for every finite roster of members, the sum
over the roster of (total owed by the member minus total owed to the member)
is zero. -/
theorem C3_conservation (splits : List Split) (g : ℕ) :
    (∀ a b : ℕ, a ≠ b →
      netBalance (update_debts Ledger.empty splits g) g a b =
        contribSum splits a b) ∧
    (∀ g' d c : ℕ, update_debts Ledger.empty splits g g' d c ≠ none →
      g' = g ∧ ∃ s ∈ splits, (d = s.group_member ∧ c = s.paid_by) ∨
        (d = s.paid_by ∧ c = s.group_member)) ∧
    (∀ ms : Finset ℕ,
      (∑ m ∈ ms,
        ((∑ x ∈ ms, owedAmount (update_debts Ledger.empty splits g) g m x) -
         (∑ x ∈ ms, owedAmount (update_debts Ledger.empty splits g) g x m)))
        = 0) := by
  refine ⟨?_, ?_, ?_⟩
  · intro a b hab
    rw [update_debts_net Ledger.empty splits g g a b hab, if_pos rfl]
    have h0 : netBalance Ledger.empty g a b = 0 := by
      unfold netBalance owedAmount Ledger.empty
      simp
    rw [h0, zero_add]
  · intro g' d c h
    rcases update_debts_support Ledger.empty splits g g' d c h with h' | h'
    · exact absurd rfl h'
    · exact h'
  · intro ms
    rw [Finset.sum_sub_distrib, Finset.sum_comm]
    exact sub_self _

theorem C3_conservation_witness :
    netBalance (update_debts Ledger.empty [⟨0, 1, 700⟩, ⟨1, 0, 300⟩] 0)
        0 0 1 =
      contribSum [⟨0, 1, 700⟩, ⟨1, 0, 300⟩] 0 1 :=
  (C3_conservation [⟨0, 1, 700⟩, ⟨1, 0, 300⟩] 0).1 0 1 (by decide)

/-- C4.  As stated the claim fails: `split_amount.quantize(Decimal(0.01))` at
src/api/utils.py line 90 passes no rounding mode, so the context default
`ROUND_HALF_EVEN` applies, not round-half-up.  At `actual_price = 0.05` split
evenly between 2 members, each split is `0.02` (half-even), while
round-half-up would give `0.03`. -/
theorem C4_counterexample : ¬ (∀ (actual_price : ℤ)
    (group_members : List ℕ) (paid_by : ℕ), 0 < actual_price →
    group_members ≠ [] →
    create_receipt_item_and_splits actual_price .EVENLY group_members
        paid_by =
      .ok (group_members.map fun member =>
        ⟨member, paid_by,
          roundHalfUp actual_price group_members.length⟩)) := by
  intro h
  have h5 := h 5 [0, 1] 0 (by decide) (by decide)
  have hcode : create_receipt_item_and_splits 5 .EVENLY [0, 1] 0 =
      .ok [⟨0, 0, 2⟩, ⟨1, 0, 2⟩] := rfl
  have hclaim : (.ok ([0, 1].map fun member =>
      (⟨member, 0, roundHalfUp 5 ([0, 1] : List ℕ).length⟩ : Split)) :
        Except String (List Split)) = .ok [⟨0, 0, 3⟩, ⟨1, 0, 3⟩] := rfl
  rw [hcode, hclaim] at h5
  injection h5 with h5
  injection h5 with h5a
  injection h5a with e1 e2 e3
  exact absurd e3 (by decide)

/-- C4 (amended).  For a roster of `n ≥ 1` members, EVENLY produces exactly
one obligation per member (the payer included), each of amount
`actual_price / n` rounded to cents with round-half-to-even (the `Decimal`
context default used by the unparametrized `quantize` call) — not
round-half-up.  For `actual_price = 10.00` and 3 members this still yields
three obligations of `3.33` (total `9.99`; the residual cent is not
redistributed). -/
theorem C4_evenly_split (actual_price : ℤ) (group_members : List ℕ)
    (paid_by : ℕ) (hne : group_members ≠ []) :
    create_receipt_item_and_splits actual_price .EVENLY group_members
        paid_by =
      .ok (group_members.map fun member =>
        ⟨member, paid_by,
          roundHalfEven actual_price group_members.length⟩) ∧
    create_receipt_item_and_splits 1000 .EVENLY [0, 1, 2] 0 =
      .ok [⟨0, 0, 333⟩, ⟨1, 0, 333⟩, ⟨2, 0, 333⟩] ∧
    (([⟨0, 0, 333⟩, ⟨1, 0, 333⟩, ⟨2, 0, 333⟩] : List Split).map
      Split.amount).sum = 999 := by
  refine ⟨?_, rfl, rfl⟩
  unfold create_receipt_item_and_splits
  rw [if_neg (by simpa [List.length_eq_zero] using hne)]

theorem C4_evenly_split_witness :
    ([0, 1] : List ℕ) ≠ [] ∧
    create_receipt_item_and_splits 5 .EVENLY [0, 1] 7 =
      .ok ([0, 1].map fun member =>
        ⟨member, 7, roundHalfEven 5 ([0, 1] : List ℕ).length⟩) :=
  ⟨by decide, (C4_evenly_split 5 [0, 1] 7 (by decide)).1⟩

/-- C5.  On a numeric input the validator rounds to cents with round-half-up
first and checks the preconditions against the rounded value: it succeeds
returning exactly the rounded payment iff that value is positive and at most
the debt, and returns an error iff it is non-positive or exceeds the debt
(never clamping).  On a non-numeric input, however, the code does not return
the error the claim describes: `Decimal(str(x))` raises
`decimal.InvalidOperation`, which `except (TypeError, ValueError)` does not
catch, so the exception escapes uncaught. -/
theorem C5_validate_payment (q : ℚ) (debt_amount : ℤ) :
    (∀ p : ℤ, validate_payment_amount (.num q) debt_amount = .ok p ↔
      (p = roundHalfUp (100 * q.num) q.den ∧ 0 < p ∧ p ≤ debt_amount)) ∧
    ((∃ e, validate_payment_amount (.num q) debt_amount = .invalid e) ↔
      (roundHalfUp (100 * q.num) q.den ≤ 0 ∨
        debt_amount < roundHalfUp (100 * q.num) q.den)) ∧
    validate_payment_amount .nonNumeric debt_amount = .raised := by
  have hval0 : validate_payment_amount (.num q) debt_amount =
      (if roundHalfUp (100 * q.num) q.den ≤ 0 then
        ValidateResult.invalid "Payment amount must be greater than 0."
       else if roundHalfUp (100 * q.num) q.den > debt_amount then
        ValidateResult.invalid "Payment amount cannot exceed the debt amount."
       else .ok (roundHalfUp (100 * q.num) q.den)) := rfl
  rw [hval0]
  refine ⟨?_, ?_, rfl⟩
  · intro p
    split_ifs with h1 h2
    · constructor
      · intro hv
        cases hv
      · rintro ⟨hp, hpos, hle⟩
        omega
    · constructor
      · intro hv
        cases hv
      · rintro ⟨hp, hpos, hle⟩
        omega
    · constructor
      · intro hv
        injection hv with hv
        refine ⟨hv.symm, by omega, by omega⟩
      · rintro ⟨hp, hpos, hle⟩
        rw [hp]
  · split_ifs with h1 h2
    · exact ⟨fun _ => Or.inl h1, fun _ => ⟨_, rfl⟩⟩
    · exact ⟨fun _ => Or.inr (by omega), fun _ => ⟨_, rfl⟩⟩
    · constructor
      · rintro ⟨e, he⟩
        cases he
      · rintro (h | h)
        · omega
        · omega

/-- C6.  For a validated payment (positive after round-half-up normalization
and at most the edge amount), settlement subtracts the rounded payment: the
edge is deleted and full settlement reported exactly when the rounded payment
equals the edge amount, otherwise the edge persists with the strictly
positive reduced amount.  Concretely on an edge of 50.00: paying 50.00
settles and deletes, paying 50.01 is rejected, paying 49.999 rounds to 50.00
and fully settles. -/
theorem C6_settlement (debt_amount : ℤ) (q : ℚ)
    (hpos : 0 < roundHalfUp (100 * q.num) q.den)
    (hle : roundHalfUp (100 * q.num) q.den ≤ debt_amount) :
    pay_debt debt_amount (.num q) =
      (if roundHalfUp (100 * q.num) q.den = debt_amount then .fullyPaid
       else .remaining
        (debt_amount - roundHalfUp (100 * q.num) q.den)) ∧
    (roundHalfUp (100 * q.num) q.den ≠ debt_amount →
      0 < debt_amount - roundHalfUp (100 * q.num) q.den) ∧
    pay_debt 5000 (.num 50) = .fullyPaid ∧
    pay_debt 5000 (.num ⟨5001, 100, by decide, by decide⟩) =
      .rejected "Payment amount cannot exceed the debt amount." ∧
    pay_debt 5000 (.num ⟨49999, 1000, by decide, by decide⟩) =
      .fullyPaid := by
  refine ⟨?_, by omega, by decide, by decide, by decide⟩
  unfold pay_debt
  have hval : validate_payment_amount (.num q) debt_amount =
      .ok (roundHalfUp (100 * q.num) q.den) := by
    have hval0 : validate_payment_amount (.num q) debt_amount =
        (if roundHalfUp (100 * q.num) q.den ≤ 0 then
          ValidateResult.invalid "Payment amount must be greater than 0."
         else if roundHalfUp (100 * q.num) q.den > debt_amount then
          ValidateResult.invalid
            "Payment amount cannot exceed the debt amount."
         else .ok (roundHalfUp (100 * q.num) q.den)) := rfl
    rw [hval0,
      if_neg (show ¬(roundHalfUp (100 * q.num) q.den ≤ 0) by omega),
      if_neg (show ¬(roundHalfUp (100 * q.num) q.den > debt_amount) by omega)]
  rw [hval]
  show (if debt_amount - roundHalfUp (100 * q.num) q.den ≤ 0 then
      PayResult.fullyPaid
    else .remaining (debt_amount - roundHalfUp (100 * q.num) q.den)) = _
  by_cases heq : roundHalfUp (100 * q.num) q.den = debt_amount
  · rw [if_pos (show debt_amount - roundHalfUp (100 * q.num) q.den ≤ 0 by
      omega), if_pos heq]
  · rw [if_neg (show ¬(debt_amount - roundHalfUp (100 * q.num) q.den ≤ 0) by
      omega), if_neg heq]

theorem C6_settlement_witness :
    0 < roundHalfUp (100 * (50 : ℚ).num) (50 : ℚ).den ∧
    roundHalfUp (100 * (50 : ℚ).num) (50 : ℚ).den ≤ 5000 ∧
    (pay_debt 5000 (.num 50) =
      (if roundHalfUp (100 * (50 : ℚ).num) (50 : ℚ).den = 5000 then
        PayResult.fullyPaid
       else .remaining
        (5000 - roundHalfUp (100 * (50 : ℚ).num) (50 : ℚ).den)) ∧
     (roundHalfUp (100 * (50 : ℚ).num) (50 : ℚ).den ≠ 5000 →
       0 < 5000 - roundHalfUp (100 * (50 : ℚ).num) (50 : ℚ).den) ∧
     pay_debt 5000 (.num 50) = .fullyPaid ∧
     pay_debt 5000 (.num ⟨5001, 100, by decide, by decide⟩) =
       .rejected "Payment amount cannot exceed the debt amount." ∧
     pay_debt 5000 (.num ⟨49999, 1000, by decide, by decide⟩) =
       .fullyPaid) :=
  ⟨by decide, by decide, C6_settlement 5000 50 (by decide) (by decide)⟩

/-- C7.  Folding an obligation whose debtor equals its creditor leaves the
store completely unchanged. -/
theorem C7_self_debt_noop (L : Ledger) (g : ℕ) (member : ℕ)
    (amount : ℤ) :
    update_debts L [⟨member, member, amount⟩] g = L :=
  update_debt_self L g ⟨member, member, amount⟩ rfl

/-- C10.  Folding a single obligation touches only the two keys of its own
group and member pair: every row of any other group, or of any other member
pair, is unchanged. -/
theorem C10_frame_effect (L : Ledger) (g : ℕ) (s : Split) (g' : ℕ)
    (d c : ℕ)
    (h : ¬(g' = g ∧ ((d = s.group_member ∧ c = s.paid_by) ∨
      (d = s.paid_by ∧ c = s.group_member)))) :
    update_debts L [s] g g' d c = L g' d c :=
  update_debt_frame L g s g' d c h

theorem C10_frame_effect_witness :
    ¬((1 : ℕ) = 0 ∧ (((2 : ℕ) = (Split.mk 0 1 500).group_member ∧
      (3 : ℕ) = (Split.mk 0 1 500).paid_by) ∨
      ((2 : ℕ) = (Split.mk 0 1 500).paid_by ∧
        (3 : ℕ) = (Split.mk 0 1 500).group_member))) ∧
    update_debts (Ledger.empty.set 1 2 3 (some 400)) [⟨0, 1, 500⟩] 0 1 2 3 =
      (Ledger.empty.set 1 2 3 (some 400)) 1 2 3 :=
  ⟨by decide, C10_frame_effect (Ledger.empty.set 1 2 3 (some 400)) 0
    ⟨0, 1, 500⟩ 1 2 3 (by decide)⟩

/-- C8.  As stated the claim fails: with a zero-amount obligation (which the
allocator can produce) the final stores of two orderings of the same
multiset differ.  Folding `{(A,B,0), (B,A,5), (A,B,5)}` into the empty store
in the listed order ends with no edge at all, while folding
`(B,A,5), (A,B,5), (A,B,0)` ends with a persisted zero-amount edge `(A,B,0)`:
the fold is order-independent only up to net balances, not up to stored
rows, once zero amounts are allowed. -/
theorem C8_counterexample : ¬ (∀ (L : Ledger) (g : ℕ)
    (l1 l2 : List Split), Invariant L → (∀ s ∈ l1, 0 ≤ s.amount) →
    l1.Perm l2 → update_debts L l1 g = update_debts L l2 g) := by
  intro h
  have heq := h Ledger.empty 0 [⟨0, 1, 0⟩, ⟨1, 0, 5⟩, ⟨0, 1, 5⟩]
    [⟨1, 0, 5⟩, ⟨0, 1, 5⟩, ⟨0, 1, 0⟩] invariant_empty (by decide) (by decide)
  have h1 : update_debts Ledger.empty [⟨0, 1, 0⟩, ⟨1, 0, 5⟩, ⟨0, 1, 5⟩]
      0 0 0 1 = none := by decide
  have h2 : update_debts Ledger.empty [⟨1, 0, 5⟩, ⟨0, 1, 5⟩, ⟨0, 1, 0⟩]
      0 0 0 1 = some 0 := by decide
  rw [heq, h2] at h1
  exact Option.noConfusion h1

/-- C8 (amended).  For every initial store satisfying the single-edge
invariant and every multiset of obligations with strictly positive amounts,
folding the obligations in any two orders yields exactly the same final
store: per pair the fold only tracks the net balance, which is a commutative
sum. -/
theorem C8_order_independence (L : Ledger) (g : ℕ) (l1 l2 : List Split)
    (hL : Invariant L) (hpos : ∀ s ∈ l1, 0 < s.amount)
    (hperm : l1.Perm l2) :
    update_debts L l1 g = update_debts L l2 g := by
  funext g' a b
  rw [update_debts_char L l1 g hL hpos g' a b,
    update_debts_char L l2 g hL
      (fun t ht => hpos t (hperm.mem_iff.mpr ht)) g' a b,
    contribSum_perm l1 l2 hperm a b]

theorem C8_order_independence_witness :
    Invariant Ledger.empty ∧
    (∀ s ∈ ([⟨0, 1, 500⟩, ⟨1, 0, 300⟩] : List Split), 0 < s.amount) ∧
    ([⟨0, 1, 500⟩, ⟨1, 0, 300⟩] : List Split).Perm
      [⟨1, 0, 300⟩, ⟨0, 1, 500⟩] ∧
    update_debts Ledger.empty [⟨0, 1, 500⟩, ⟨1, 0, 300⟩] 0 =
      update_debts Ledger.empty [⟨1, 0, 300⟩, ⟨0, 1, 500⟩] 0 :=
  ⟨invariant_empty, by decide, by decide,
    C8_order_independence Ledger.empty 0 _ _ invariant_empty (by decide)
      (by decide)⟩

/-- C9.  End-to-end: for the group roster `{A, B, C}` (here `0, 1, 2`), a
receipt item of `30.00` paid by `A` and split EVENLY produces the
obligations `(A owes A, 10.00)`, `(B owes A, 10.00)`, `(C owes A, 10.00)`,
and folding them into the empty store leaves exactly the two edges
`(B owes A, 10.00)` and `(C owes A, 10.00)`. -/
theorem C9_end_to_end :
    create_receipt_item_and_splits 3000 .EVENLY [0, 1, 2] 0 =
      .ok [⟨0, 0, 1000⟩, ⟨1, 0, 1000⟩, ⟨2, 0, 1000⟩] ∧
    update_debts Ledger.empty [⟨0, 0, 1000⟩, ⟨1, 0, 1000⟩, ⟨2, 0, 1000⟩] 0 =
      (Ledger.empty.set 0 1 0 (some 1000)).set 0 2 0 (some 1000) :=
  ⟨rfl, rfl⟩

end GroceryShare
